import Mathlib

/-!
# Verification of the `resizer` image-resizing CLI (src/main.rs)

A shallow embedding of the program's logic, followed by theorems checking the
specification's claims against it.  Filesystem and image-library effects are
modelled as explicit oracle parameters; the control flow, string processing and
arithmetic are translated from the source.
-/

set_option maxRecDepth 4000

/-- A filesystem path, modelled as its (already normalised) list of
components, as produced by the CLI, `WalkDir` or glob expansion.  Rust's
`Path` component normalisation (removal of `.` components, root handling)
is assumed to have happened; no component is `"."` or empty. -/
structure RustPath where
  components : List String
deriving DecidableEq, Repr

/-- Rust `Path::file_name`: the final component, `none` when the path is
empty or terminates in `..`. -/
def RustPath.fileName (p : RustPath) : Option String :=
  match p.components.getLast? with
  | none => none
  | some s => if s = ".." then none else some s

/-- Rust `Path::join` with a plain file name (never an absolute path, so it
simply appends one component) — used as `o.join(input_path.file_name().unwrap())`. -/
def RustPath.join (p : RustPath) (name : String) : RustPath :=
  ⟨p.components ++ [name]⟩

/-- Rust `Path::display`, with `/` as the separator. -/
def RustPath.display (p : RustPath) : String :=
  String.intercalate "/" p.components

/-- Split a character list at its LAST `'.'`: returns `(before, after)`,
`none` when there is no `'.'` at all.  Mirrors the search Rust's
`Path::extension` performs on the file name. -/
def splitLastDot : List Char → Option (List Char × List Char)
  | [] => none
  | c :: cs =>
    match splitLastDot cs with
    | some (b, a) => some (c :: b, a)
    | none => if c = '.' then some ([], cs) else none

/-- Rust `Path::extension`: the part of the file name after its last `'.'`;
`none` when there is no file name, no `'.'`, or the only text before the
last `'.'` is empty (hidden files such as `.gitignore`). -/
def RustPath.extension (p : RustPath) : Option String :=
  match p.fileName with
  | none => none
  | some name =>
    match splitLastDot name.data with
    | none => none
    | some (before, after) => if before = [] then none else some (String.mk after)

/-- Rust `str::to_lowercase`, at the ASCII level (`Char.toLower` lowers
exactly the ASCII uppercase letters).  Rust additionally lowers non-ASCII
uppercase letters, but no such letter lowers to a plain ASCII string of the
seven extension keywords compared against below, so the comparison results
coincide. -/
def rustToLowercase (s : String) : String :=
  String.mk (s.data.map Char.toLower)

/-- `is_image_file` (src/main.rs:89-99): extension, lower-cased, matched
against the seven supported image extensions.  A missing extension (or a
non-UTF-8 one, which can equal none of the ASCII keywords) becomes `""`.
Pure: no side effects, no errors. -/
def is_image_file (path : RustPath) : Bool :=
  let ext := rustToLowercase ((path.extension).getD "")
  ext = "jpg" || ext = "jpeg" || ext = "png" || ext = "gif" ||
    ext = "bmp" || ext = "tiff" || ext = "webp"

/-- The seven supported extensions, lower-case. -/
def supportedExtensions : List String :=
  ["jpg", "jpeg", "png", "gif", "bmp", "tiff", "webp"]

instance {ε α : Type} [DecidableEq ε] [DecidableEq α] : DecidableEq (Except ε α)
  | Except.ok a, Except.ok b =>
    if h : a = b then isTrue (by rw [h]) else isFalse (fun hh => by cases hh; exact h rfl)
  | Except.ok _, Except.error _ => isFalse (fun hh => by cases hh)
  | Except.error _, Except.ok _ => isFalse (fun hh => by cases hh)
  | Except.error e, Except.error f =>
    if h : e = f then isTrue (by rw [h]) else isFalse (fun hh => by cases hh; exact h rfl)

/-- Rust `str::ends_with(c)` for a single character: the last character is `c`. -/
def rustEndsWith (s : String) (c : Char) : Bool :=
  s.data.getLast? = some c

/-- Rust `str::split(c)` on a character list: splits at every occurrence of
`sep`, keeping empty fields (`"xx".split('x')` is `["", "", ""]`). -/
def splitOnChar (sep : Char) : List Char → List (List Char)
  | [] => [[]]
  | c :: cs =>
    match splitOnChar sep cs with
    | [] => [[]]
    | g :: gs => if c = sep then [] :: g :: gs else (c :: g) :: gs

/-- Rust `str::split(c).collect::<Vec<_>>()` as a list of strings. -/
def rustSplit (s : String) (sep : Char) : List String :=
  (splitOnChar sep s.data).map String.mk

/-- Rust `str::trim_end_matches('%')`: removes every trailing `'%'`. -/
def trimEndPercent (s : String) : String :=
  String.mk (s.data.reverse.dropWhile (fun c => c = '%')).reverse

/-- Value of a list of ASCII digits, most significant first. -/
def digitsToNat (ds : List Char) : Nat :=
  ds.foldl (fun a c => a * 10 + (c.toNat - 48)) 0

/-- Rust `str::parse::<u32>` (`dims[i].parse()` in src/main.rs:135,139):
an optional leading `'+'`, then one or more ASCII digits; rejects the empty
string, any other character, and values not fitting in 32 bits. -/
def parseU32 (s : String) : Option Nat :=
  let ds := match s.data with
    | '+' :: rest => rest
    | cs => cs
  if ds.isEmpty then none
  else if ds.all Char.isDigit then
    let v := digitsToNat ds
    if v < 4294967296 then some v else none
  else none

/-- A parsed decimal number `num * 10 ^ exp / 10 ^ fracLen` (the sign lives
in `num`), kept in integer form so that parsing stays kernel-computable. -/
structure DecNum where
  num : ℤ
  fracLen : ℕ
  exp : ℤ
deriving DecidableEq, Repr

/-- The rational value of a parsed decimal number. -/
def DecNum.toRat (d : DecNum) : ℚ :=
  (d.num : ℚ) * 10 ^ d.exp / 10 ^ d.fracLen

/-- Exponent suffix of a float literal: empty, or `e`/`E`, an optional sign
and one or more digits.  `mant`/`fracLen` are the already-parsed mantissa. -/
def parseF32Exp (num : ℤ) (fracLen : ℕ) : List Char → Option DecNum
  | [] => some ⟨num, fracLen, 0⟩
  | c :: rest =>
    if c = 'e' ∨ c = 'E' then
      match rest with
      | '+' :: ds =>
        if ds.isEmpty || !ds.all Char.isDigit then none
        else some ⟨num, fracLen, (digitsToNat ds : ℤ)⟩
      | '-' :: ds =>
        if ds.isEmpty || !ds.all Char.isDigit then none
        else some ⟨num, fracLen, -(digitsToNat ds : ℤ)⟩
      | ds =>
        if ds.isEmpty || !ds.all Char.isDigit then none
        else some ⟨num, fracLen, (digitsToNat ds : ℤ)⟩
    else none

/-- Mantissa of a float literal: digits, an optional `'.'` with further
digits, requiring at least one digit overall; then the exponent suffix. -/
def parseF32Mant (sign : ℤ) (cs : List Char) : Option DecNum :=
  let ip := cs.takeWhile Char.isDigit
  let r1 := cs.dropWhile Char.isDigit
  match r1 with
  | '.' :: r =>
    let fp := r.takeWhile Char.isDigit
    let r2 := r.dropWhile Char.isDigit
    if ip.isEmpty && fp.isEmpty then none
    else parseF32Exp (sign * (digitsToNat ip * 10 ^ fp.length + digitsToNat fp)) fp.length r2
  | _ =>
    if ip.isEmpty then none
    else parseF32Exp (sign * digitsToNat ip) 0 r1

/-- Rust `str::parse::<f32>` (src/main.rs:121), modelled exactly over ℚ:
an optional sign, then a decimal mantissa with optional fraction and
exponent.  Idealisation: the special spellings `inf`/`infinity`/`nan` and
f32 range/rounding are not modelled; on the inputs appearing in the
theorems below (small decimal literals whose f32 conversion and products
are exact) the model agrees with f32 arithmetic. -/
def parseF32Dec (s : String) : Option DecNum :=
  match s.data with
  | '+' :: rest => parseF32Mant 1 rest
  | '-' :: rest => parseF32Mant (-1) rest
  | cs => parseF32Mant 1 cs

/-- Rust `f32::round`: round to nearest, ties away from zero. -/
def ratRound (q : ℚ) : ℤ :=
  if q < 0 then -⌊-q + 1/2⌋ else ⌊q + 1/2⌋

/-- Rust `as u32` on an (already rounded) float value: saturating —
negative values become 0, values above `u32::MAX` become `u32::MAX`. -/
def f32ToU32 (z : ℤ) : ℕ :=
  (max 0 (min z 4294967295)).toNat

/-- Errors of the resize-spec parsing part of `resize_image`
(src/main.rs:117-142), in the order the source can raise them. -/
inductive RErr where
  | invalidPercentage
  | badFormat
  | invalidWidth
  | invalidHeight
deriving DecidableEq, Repr

/-- The resize-spec parsing of `resize_image` (src/main.rs:117-142): on a
spec ending in `'%'`, strip the `'%'`s, parse as float, scale both source
dimensions and round; otherwise split on `'x'`, require exactly two
components and parse each as `u32`.  No dimension-positivity check exists
in the source. -/
def resizeSpecDims (resize_arg : String) (w hgt : Nat) : Except RErr (Nat × Nat) :=
  if rustEndsWith resize_arg '%' then
    match parseF32Dec (trimEndPercent resize_arg) with
    | none => Except.error RErr.invalidPercentage
    | some d =>
      let percent : ℚ := d.toRat / 100
      Except.ok (f32ToU32 (ratRound ((w : ℚ) * percent)),
                 f32ToU32 (ratRound ((hgt : ℚ) * percent)))
  else
    match rustSplit resize_arg 'x' with
    | [d0, d1] =>
      match parseU32 d0 with
      | none => Except.error RErr.invalidWidth
      | some a =>
        match parseU32 d1 with
        | none => Except.error RErr.invalidHeight
        | some b => Except.ok (a, b)
    | _ => Except.error RErr.badFormat

/-- `parseU32` rejects the empty string. -/
theorem parseU32_empty : parseU32 "" = none := by decide

/-- A string that parses as `u32` is non-empty. -/
theorem parseU32_ne_empty {c : String} {v : Nat} (h : parseU32 c = some v) : c ≠ "" := by
  intro he
  rw [he, parseU32_empty] at h
  exact Option.noConfusion h

/-- `ratRound` maps non-positive rationals to non-positive integers. -/
theorem ratRound_nonpos {q : ℚ} (hq : q ≤ 0) : ratRound q ≤ 0 := by
  unfold ratRound
  split
  · have h0 : (0 : ℚ) ≤ -q + 1/2 := by linarith
    have := Int.floor_nonneg.mpr h0
    omega
  · have hq0 : q = 0 := le_antisymm hq (not_lt.mp (by assumption))
    rw [hq0]
    norm_num

/-- The saturating `as u32` cast maps non-positive values to 0. -/
theorem f32ToU32_nonpos {z : ℤ} (hz : z ≤ 0) : f32ToU32 z = 0 := by
  unfold f32ToU32
  have hmin : min z (4294967295 : ℤ) ≤ 0 := le_trans (min_le_left _ _) hz
  rw [max_eq_left hmin]
  rfl

/-- C5: `is_image_file` returns true iff the path's extension, lower-cased,
is one of {jpg, jpeg, png, gif, bmp, tiff, webp}; a path with any other
extension, or without one, returns false.  (The function is pure, so "no
side effects, no error" holds by construction.) -/
theorem c5_is_image_file_iff (p : RustPath) :
    is_image_file p = true ↔
      ∃ e, p.extension = some e ∧ rustToLowercase e ∈ supportedExtensions := by
  unfold is_image_file supportedExtensions
  cases hext : p.extension with
  | none =>
      simp only [hext, Option.getD]
      constructor
      · intro h
        exact absurd h (by decide)
      · rintro ⟨e, he, _⟩
        exact Option.noConfusion he
  | some e =>
      simp only [hext, Option.getD]
      constructor
      · intro h
        refine ⟨e, rfl, ?_⟩
        simp only [Bool.or_eq_true, decide_eq_true_eq] at h
        simp only [List.mem_cons, List.not_mem_nil, or_false]
        rcases h with ((((((h | h) | h) | h) | h) | h) | h) <;> simp [h]
      · rintro ⟨e', he', hmem⟩
        cases he'
        simp only [List.mem_cons, List.not_mem_nil, or_false] at hmem
        simp only [Bool.or_eq_true, decide_eq_true_eq]
        rcases hmem with h | h | h | h | h | h | h <;> simp [h]

/-- C1, counterexample: `parse("0%", 200, 100)` does not fail — it succeeds
with the non-positive target (0, 0); no "invalid dimensions" rejection
exists anywhere in `resize_image`. -/
theorem c1_counterexample_zero_percent_ok :
    resizeSpecDims "0%" 200 100 = Except.ok (0, 0) ∧
    ∀ e : RErr, resizeSpecDims "0%" 200 100 ≠ Except.error e := by
  have hok : resizeSpecDims "0%" 200 100 = Except.ok (0, 0) := by
    have h1 : rustEndsWith "0%" '%' = true := by decide
    have h2 : parseF32Dec (trimEndPercent "0%") = some ⟨0, 0, 0⟩ := by decide
    simp only [resizeSpecDims, h1, if_true, h2]
    norm_num [DecNum.toRat, ratRound, f32ToU32]
  refine ⟨hok, fun e he => ?_⟩
  rw [hok] at he
  exact Except.noConfusion he

/-- C1, amended: a percentage resize spec whose scaled dimensions are
non-positive is NOT rejected: a zero percentage yields the target (0, 0),
and a negative percentage also yields (0, 0) because the saturating `as
u32` cast clamps the negative rounded values to 0; the target is passed to
the resize library unchecked. -/
theorem c1_amended_nonpositive_not_rejected (w hgt : Nat) :
    resizeSpecDims "0%" w hgt = Except.ok (0, 0) ∧
    resizeSpecDims "-50%" w hgt = Except.ok (0, 0) := by
  constructor
  · have h1 : rustEndsWith "0%" '%' = true := by decide
    have h2 : parseF32Dec (trimEndPercent "0%") = some ⟨0, 0, 0⟩ := by decide
    simp only [resizeSpecDims, h1, if_true, h2]
    norm_num [DecNum.toRat, ratRound, f32ToU32]
  · have h1 : rustEndsWith "-50%" '%' = true := by decide
    have h2 : parseF32Dec (trimEndPercent "-50%") = some ⟨-50, 0, 0⟩ := by decide
    simp only [resizeSpecDims, h1, if_true, h2]
    have hval : DecNum.toRat ⟨-50, 0, 0⟩ / 100 = -(1/2) := by
      norm_num [DecNum.toRat]
    rw [hval]
    have hw : ((w : ℚ)) * -(1/2) ≤ 0 := by
      have : (0 : ℚ) ≤ (w : ℚ) := by positivity
      nlinarith
    have hh : ((hgt : ℚ)) * -(1/2) ≤ 0 := by
      have : (0 : ℚ) ≤ (hgt : ℚ) := by positivity
      nlinarith
    rw [f32ToU32_nonpos (ratRound_nonpos hw), f32ToU32_nonpos (ratRound_nonpos hh)]

/-- C2: for a spec not ending in `'%'`, parsing splits on `'x'` and returns
the pair literally, independent of the source dimensions, succeeding
exactly when the split has exactly two non-empty components each parseable
as `u32`. -/
theorem c2_exact_dims_spec (s : String) (w hgt w2 hgt2 a b : Nat)
    (hnp : rustEndsWith s '%' = false) :
    (resizeSpecDims s w hgt = Except.ok (a, b) ↔
      ∃ c1 c2, rustSplit s 'x' = [c1, c2] ∧ c1 ≠ "" ∧ c2 ≠ "" ∧
        parseU32 c1 = some a ∧ parseU32 c2 = some b) ∧
    resizeSpecDims s w hgt = resizeSpecDims s w2 hgt2 := by
  have hred : ∀ (w' h' : Nat), resizeSpecDims s w' h' =
      (match rustSplit s 'x' with
        | [d0, d1] =>
          match parseU32 d0 with
          | none => Except.error RErr.invalidWidth
          | some a0 =>
            match parseU32 d1 with
            | none => Except.error RErr.invalidHeight
            | some b0 => Except.ok (a0, b0)
        | _ => Except.error RErr.badFormat) := by
    intro w' h'
    simp only [resizeSpecDims, hnp, Bool.false_eq_true, if_false]
  refine ⟨?_, by rw [hred w hgt, hred w2 hgt2]⟩
  constructor
  · intro hok
    rw [hred w hgt] at hok
    split at hok
    · rename_i d0 d1 heq
      split at hok
      · exact absurd hok (by simp)
      · rename_i a0 hp0
        split at hok
        · exact absurd hok (by simp)
        · rename_i b0 hp1
          simp only [Except.ok.injEq, Prod.mk.injEq] at hok
          obtain ⟨rfl, rfl⟩ := hok
          exact ⟨d0, d1, heq, parseU32_ne_empty hp0, parseU32_ne_empty hp1, hp0, hp1⟩
    · exact absurd hok (by simp)
  · rintro ⟨c1, c2, hsp', _, _, h1, h2⟩
    rw [hred w hgt]
    simp only [hsp', h1, h2]

/-- Witness for C2: `parse("300x150", 7, 9)` yields (300, 150). -/
theorem c2_witness : resizeSpecDims "300x150" 7 9 = Except.ok (300, 150) :=
  (c2_exact_dims_spec "300x150" 7 9 1 2 300 150 (by decide)).1.mpr
    ⟨"300", "150", by decide, by decide, by decide, by decide, by decide⟩

/-- Rust `char::is_whitespace`: the Unicode White_Space code points. -/
def rustIsWhitespace (c : Char) : Bool :=
  let n := c.toNat
  (9 ≤ n && n ≤ 13) || n = 32 || n = 133 || n = 160 || n = 5760 ||
    (8192 ≤ n && n ≤ 8202) || n = 8232 || n = 8233 || n = 8239 || n = 8287 || n = 12288

/-- Rust `str::trim`: strip Unicode whitespace from both ends. -/
def rustTrim (s : String) : String :=
  String.mk ((s.data.dropWhile rustIsWhitespace).reverse.dropWhile rustIsWhitespace).reverse

/-- Rust `str::eq_ignore_ascii_case`: equality after lowering the ASCII
uppercase letters (`Char.toLower` is exactly that ASCII mapping). -/
def eqIgnoreAsciiCase (a b : String) : Bool :=
  a.data.map Char.toLower = b.data.map Char.toLower

/-- `confirm_overwrite` (src/main.rs:101-109), with the line read from
stdin passed as an explicit argument: prints the prompt, reads one line,
and returns whether the trimmed input ASCII-case-insensitively equals
`"y"`.  (A stdin read error, which would abort the run, is not modelled.) -/
def confirm_overwrite (inputLine : String) : Bool :=
  eqIgnoreAsciiCase (rustTrim inputLine) "y"

/-- The spec's OverwriteGate, as inlined in `main` (src/main.rs:72-76):
first component is whether the write may proceed, second is the number of
prompt/read interactions performed. -/
def may_write (force existsOut : Bool) (inputLine : String) : Bool × Nat :=
  if existsOut && !force then (confirm_overwrite inputLine, 1) else (true, 0)

/-- A decoded in-memory image; only its pixel dimensions matter to the
logic under verification. -/
structure Image where
  width : Nat
  height : Nat
deriving DecidableEq, Repr

/-- The error that aborts a run, tagged by the step that raised it
(`anyhow` context messages are represented by the constructor and its
payload). -/
inductive RunError where
  | noInputs
  | noValidImages
  | globPattern (msg : String)
  | globEntry (msg : String)
  | decodeError (path : RustPath)
  | parseError (e : RErr)
  | encodeError (path : RustPath)
deriving DecidableEq, Repr

/-- The effectful collaborators of one run, as oracles: `image::open`
(`none` = decode failure), the library's `DynamicImage::resize`, `save`
(`false` = write failure), whether `args.output` is a directory, which
paths exist, and the stdin line the operator would type at the overwrite
prompt for a given output path. -/
structure RunEnv where
  decode : RustPath → Option Image
  resizeLib : Image → Nat → Nat → Image
  save : RustPath → Image → Bool
  outputIsDir : Bool
  existsFs : RustPath → Bool
  userAnswer : RustPath → String

/-- `resize_image` (src/main.rs:111-152): decode the input, parse the
resize spec against the decoded dimensions, resize via the library, save.
The first failing step aborts with its error. -/
def resize_image (env : RunEnv) (input_path output_path : RustPath)
    (resize_arg : String) : Except RunError Unit :=
  match env.decode input_path with
  | none => Except.error (RunError.decodeError input_path)
  | some img =>
    match resizeSpecDims resize_arg img.width img.height with
    | Except.error e => Except.error (RunError.parseError e)
    | Except.ok (w, hgt) =>
      let resized := env.resizeLib img w hgt
      if env.save output_path resized then Except.ok ()
      else Except.error (RunError.encodeError output_path)

/-- Output-path resolution (src/main.rs:66-70): an explicit output that is
a directory gets the input's file name appended; an explicit non-directory
output is used verbatim; no output means in-place overwrite.  The source's
`input_path.file_name().unwrap()` is modelled with `getD ""`; every path
reaching this point is an image file, whose `fileName` is `some`. -/
def resolveOutput (output : Option RustPath) (outputIsDir : Bool)
    (input_path : RustPath) : RustPath :=
  match output with
  | some o => if outputIsDir then o.join ((input_path.fileName).getD "") else o
  | none => input_path

/-- The success line printed for one file (src/main.rs:79-83). -/
def processedLine (input_path output_path : RustPath) : String :=
  "Processed: " ++ input_path.display ++ " -> " ++ output_path.display

/-- Outcome of one iteration of main's per-file loop. -/
inductive StepResult where
  | skip
  | ok (line : String)
  | err (e : RunError)
deriving DecidableEq, Repr

def StepResult.isErr : StepResult → Bool
  | .err _ => true
  | _ => false

def StepResult.isOk : StepResult → Bool
  | .ok _ => true
  | _ => false

/-- The part of the loop body after the gate: run `resize_image`; on
success the "Processed" line is printed. -/
def stepBody (env : RunEnv) (input_path out : RustPath) (arg : String) : StepResult :=
  match resize_image env input_path out arg with
  | Except.error e => StepResult.err e
  | Except.ok _ => StepResult.ok (processedLine input_path out)

/-- One iteration of main's loop (src/main.rs:65-84): resolve the output,
apply the overwrite gate (lines 72-76: prompt only when the output exists
and `force` is off; a refusal means `continue`), then process. -/
def stepOf (env : RunEnv) (force : Bool) (output : Option RustPath) (arg : String)
    (input_path : RustPath) : StepResult :=
  let out := resolveOutput output env.outputIsDir input_path
  if env.existsFs out && !force then
    if confirm_overwrite (env.userAnswer out) then stepBody env input_path out arg
    else StepResult.skip
  else stepBody env input_path out arg

/-- main's processing loop (src/main.rs:65-86).  Returns (files whose loop
iteration was entered, printed "Processed" lines in order, the error that
aborted the run if any).  A skip (`continue`) moves on; an error returns
from `main` at once (`?` on `resize_image`), so no later file is
attempted; an error return from `main` is a non-zero process exit. -/
def processLoop (env : RunEnv) (force : Bool) (output : Option RustPath) (arg : String) :
    List RustPath → List RustPath × List String × Option RunError
  | [] => ([], [], none)
  | f :: rest =>
    match stepOf env force output arg f with
    | StepResult.skip =>
      let r := processLoop env force output arg rest
      (f :: r.1, r.2.1, r.2.2)
    | StepResult.ok line =>
      let r := processLoop env force output arg rest
      (f :: r.1, line :: r.2.1, r.2.2)
    | StepResult.err e => ([f], [], some e)

/-- The "Processed" line a given input would print, as a function of the
input alone. -/
def lineOf (env : RunEnv) (output : Option RustPath) (f : RustPath) : String :=
  processedLine f (resolveOutput output env.outputIsDir f)

/-- A successful step prints exactly the line determined by the input and
its resolved output. -/
theorem stepOf_ok_line {env : RunEnv} {force : Bool} {output : Option RustPath}
    {arg : String} {f : RustPath} {l : String}
    (h : stepOf env force output arg f = StepResult.ok l) :
    l = lineOf env output f := by
  simp only [stepOf, stepBody, lineOf] at h ⊢
  split at h
  · split at h
    · split at h
      · exact absurd h (by simp)
      · injection h with h1
        exact h1.symm
    · exact absurd h (by simp)
  · split at h
    · exact absurd h (by simp)
    · injection h with h1
      exact h1.symm

/-- Fail-fast behaviour of main's loop: if everything before position `k`
succeeds or is skipped and position `k` errors, then exactly the first
`k+1` files are attempted, the printed lines are those of the successful
files among the first `k`, and the run aborts with an error. -/
theorem processLoop_fail_fast (env : RunEnv) (force : Bool) (output : Option RustPath)
    (arg : String) :
    ∀ (files : List RustPath) (k : Nat) (hk : k < files.length),
    (∀ f ∈ files.take k, (stepOf env force output arg f).isErr = false) →
    (stepOf env force output arg (files.get ⟨k, hk⟩)).isErr = true →
    (processLoop env force output arg files).1 = files.take (k+1) ∧
    (processLoop env force output arg files).2.1 =
      ((files.take k).filter (fun f => (stepOf env force output arg f).isOk)).map
        (lineOf env output) ∧
    (processLoop env force output arg files).2.2 ≠ none := by
  intro files
  induction files with
  | nil =>
    intro k hk _ _
    exact absurd hk (by simp)
  | cons f rest ih =>
    intro k hk hpre hfail
    cases k with
    | zero =>
      cases hst : stepOf env force output arg f with
      | skip =>
        rw [show (f :: rest).get ⟨0, hk⟩ = f from rfl, hst] at hfail
        exact absurd hfail (by simp [StepResult.isErr])
      | ok line =>
        rw [show (f :: rest).get ⟨0, hk⟩ = f from rfl, hst] at hfail
        exact absurd hfail (by simp [StepResult.isErr])
      | err e =>
        refine ⟨?_, ?_, ?_⟩ <;> simp [processLoop, hst]
    | succ k1 =>
      have hf : (stepOf env force output arg f).isErr = false := hpre f (by simp)
      have hk1 : k1 < rest.length := by simpa using hk
      have hpre1 : ∀ g ∈ rest.take k1, (stepOf env force output arg g).isErr = false :=
        fun g hg => hpre g (by simp [hg])
      have hfail1 : (stepOf env force output arg (rest.get ⟨k1, hk1⟩)).isErr = true := by
        rw [show (f :: rest).get ⟨k1 + 1, hk⟩ = rest.get ⟨k1, hk1⟩ from rfl] at hfail
        exact hfail
      obtain ⟨ih1, ih2, ih3⟩ := ih k1 hk1 hpre1 hfail1
      cases hst : stepOf env force output arg f with
      | err e =>
        rw [hst] at hf
        exact absurd hf (by simp [StepResult.isErr])
      | skip =>
        refine ⟨?_, ?_, ?_⟩
        · simp [processLoop, hst, ih1]
        · simp [processLoop, hst, ih2, StepResult.isOk]
        · simp only [processLoop, hst]
          exact ih3
      | ok line =>
        refine ⟨?_, ?_, ?_⟩
        · simp [processLoop, hst, ih1]
        · have hl : line = lineOf env output f := stepOf_ok_line hst
          simp [processLoop, hst, ih2, StepResult.isOk, hl]
        · simp only [processLoop, hst]
          exact ih3

/-- C4: if the `k`-th file of the expanded list fails (in decode, spec
parsing, resize or encode/write) and no earlier file failed, the run aborts
with a non-zero exit: exactly the successfully processed files before
position `k` have printed a "Processed" line, and no file after position
`k` is ever attempted (the attempted files are exactly the first `k+1`). -/
theorem c4_whole_run_fail_fast (env : RunEnv) (force : Bool) (output : Option RustPath)
    (arg : String) (files : List RustPath) (k : Nat) (hk : k < files.length)
    (hpre : ∀ f ∈ files.take k, (stepOf env force output arg f).isErr = false)
    (hfail : (stepOf env force output arg (files.get ⟨k, hk⟩)).isErr = true) :
    (processLoop env force output arg files).1 = files.take (k+1) ∧
    (processLoop env force output arg files).2.1 =
      ((files.take k).filter (fun f => (stepOf env force output arg f).isOk)).map
        (lineOf env output) ∧
    (processLoop env force output arg files).2.2 ≠ none :=
  processLoop_fail_fast env force output arg files k hk hpre hfail

/-- A concrete run environment: every decode succeeds with a 10×10 image
except `b.png`, which fails; every save succeeds; nothing exists on disk. -/
def demoEnv : RunEnv where
  decode := fun p => if p = ⟨["b.png"]⟩ then none else some ⟨10, 10⟩
  resizeLib := fun _ w hgt => ⟨w, hgt⟩
  save := fun _ _ => true
  outputIsDir := false
  existsFs := fun _ => false
  userAnswer := fun _ => ""

/-- A concrete three-file batch whose second file fails decoding. -/
def demoFiles : List RustPath := [⟨["a.png"]⟩, ⟨["b.png"]⟩, ⟨["c.png"]⟩]

/-- Witness for C4: in a three-file run whose second file fails decoding,
exactly one "Processed" line is printed, the run aborts, and the third
file is never attempted. -/
theorem c4_witness :
    (processLoop demoEnv false none "50x50" demoFiles).1 =
      [RustPath.mk ["a.png"], RustPath.mk ["b.png"]] ∧
    (processLoop demoEnv false none "50x50" demoFiles).2.1 =
      ["Processed: a.png -> a.png"] ∧
    (processLoop demoEnv false none "50x50" demoFiles).2.2 ≠ none := by
  obtain ⟨h1, h2, h3⟩ := c4_whole_run_fail_fast demoEnv false none "50x50" demoFiles 1
    (by decide) (by decide) (by decide)
  refine ⟨?_, ?_, h3⟩
  · rw [h1]; decide
  · rw [h2]; decide

/-- C6: the overwrite gate returns true without prompting when `force` is
set or the output does not exist; otherwise it prompts exactly once (the
interaction count is 1), returning true iff the trimmed answer
ASCII-case-insensitively equals "y"; and a refused file is skipped — the
loop continues with the remaining files instead of aborting. -/
theorem c6_overwrite_gate (env : RunEnv) (force ex : Bool) (ans : String)
    (output : Option RustPath) (arg : String) :
    ((force = true ∨ ex = false) → may_write force ex ans = (true, 0)) ∧
    (force = false → ex = true →
      may_write force ex ans = (confirm_overwrite ans, 1) ∧
      (confirm_overwrite ans = true ↔ eqIgnoreAsciiCase (rustTrim ans) "y" = true)) ∧
    (∀ f rest,
      (may_write force (env.existsFs (resolveOutput output env.outputIsDir f))
          (env.userAnswer (resolveOutput output env.outputIsDir f))).1 = false →
      processLoop env force output arg (f :: rest) =
        (f :: (processLoop env force output arg rest).1,
         (processLoop env force output arg rest).2.1,
         (processLoop env force output arg rest).2.2)) := by
  refine ⟨?_, ?_, ?_⟩
  · rintro (rfl | rfl) <;> simp [may_write]
  · rintro rfl rfl
    exact ⟨by simp [may_write], Iff.rfl⟩
  · intro f rest hmw
    have hsk : stepOf env force output arg f = StepResult.skip := by
      simp only [stepOf]
      simp only [may_write] at hmw
      split at hmw
      · rename_i hcond
        rw [if_pos hcond]
        simp only at hmw
        rw [hmw]
        simp
      · simp at hmw
    simp [processLoop, hsk]

/-- A run environment in which every output path already exists and the
operator answers "n" to every prompt. -/
def demoSkipEnv : RunEnv where
  decode := fun _ => some ⟨10, 10⟩
  resizeLib := fun _ w hgt => ⟨w, hgt⟩
  save := fun _ _ => true
  outputIsDir := false
  existsFs := fun _ => true
  userAnswer := fun _ => "n"

/-- Witness for C6: with `force` set the gate allows without prompting, and
with an existing output and answer "n" the file is skipped while the run
continues (here: ends successfully with no lines). -/
theorem c6_witness :
    may_write true true "n" = (true, 0) ∧
    processLoop demoSkipEnv false none "50x50" [⟨["a.png"]⟩] =
      ([RustPath.mk ["a.png"]], [], none) := by
  constructor
  · exact (c6_overwrite_gate demoSkipEnv true true "n" none "50x50").1 (Or.inl rfl)
  · have h := (c6_overwrite_gate demoSkipEnv false true "n" none "50x50").2.2
      ⟨["a.png"]⟩ [] (by decide)
    rw [h]
    decide

/-- An image file has a file name. -/
theorem is_image_file_fileName {p : RustPath} (h : is_image_file p = true) :
    ∃ n, p.fileName = some n := by
  cases hf : p.fileName with
  | some n => exact ⟨n, rfl⟩
  | none =>
    simp only [is_image_file, RustPath.extension, hf, Option.getD] at h
    exact absurd h (by decide)

/-- C8: the resolved output path is the explicit output with the input's
file name appended when the explicit output is a directory, the explicit
output verbatim when it is not, and the input path itself when no output
is given.  `resolveOutput` is a function of (output, is-dir, input), so
exactly one resolution exists per processed input. -/
theorem c8_output_resolution (output : Option RustPath) (d : Bool) (input_path : RustPath) :
    (output = none → resolveOutput output d input_path = input_path) ∧
    (∀ o, output = some o → d = false → resolveOutput output d input_path = o) ∧
    (∀ o, output = some o → d = true → is_image_file input_path = true →
      ∃ n, input_path.fileName = some n ∧
        resolveOutput output d input_path = o.join n) := by
  refine ⟨?_, ?_, ?_⟩
  · rintro rfl; rfl
  · rintro o rfl rfl; rfl
  · rintro o rfl rfl himg
    obtain ⟨n, hn⟩ := is_image_file_fileName himg
    exact ⟨n, hn, by simp [resolveOutput, hn]⟩

/-- Witness for C8: the three resolution cases at concrete paths. -/
theorem c8_witness :
    resolveOutput none false ⟨["a.png"]⟩ = ⟨["a.png"]⟩ ∧
    resolveOutput (some ⟨["out.png"]⟩) false ⟨["a.png"]⟩ = ⟨["out.png"]⟩ ∧
    ∃ n, RustPath.fileName ⟨["a.png"]⟩ = some n ∧
      resolveOutput (some ⟨["outdir"]⟩) true ⟨["a.png"]⟩ = RustPath.join ⟨["outdir"]⟩ n :=
  ⟨(c8_output_resolution none false ⟨["a.png"]⟩).1 rfl,
    (c8_output_resolution (some ⟨["out.png"]⟩) false ⟨["a.png"]⟩).2.1 _ rfl rfl,
    (c8_output_resolution (some ⟨["outdir"]⟩) true ⟨["a.png"]⟩).2.2 _ rfl rfl (by decide)⟩

/-- The filesystem's view of one user-supplied input (src/main.rs:38-59):
the path itself, whether it is an existing directory (`input.is_dir()`),
whether it exists at all (never consulted by the expansion code), its
UTF-8 text (`input.to_str()`, `none` for non-UTF-8 paths), the regular
files a recursive `WalkDir` traversal yields when it is a directory
(walk errors are silently dropped by `filter_map(|e| e.ok())`), and the
result of `glob::glob` on its text: either a pattern error or the ordered
entries, each itself either a read error or a path. -/
structure InputView where
  path : RustPath
  isDir : Bool
  existsFs : Bool
  text : Option String
  dirFiles : List RustPath
  globResult : Except String (List (Except String RustPath))

/-- Rust `str::contains(c)` for a single character (the wildcard test at
src/main.rs:49). -/
def rustContains (s : String) (c : Char) : Bool :=
  s.data.contains c

/-- The glob loop (src/main.rs:50-55): walk the entries in order, abort on
the first entry error (`entry?`), keep each path iff `is_image_file`. -/
def globCollect : List (Except String RustPath) → Except RunError (List RustPath)
  | [] => Except.ok []
  | Except.error e :: _ => Except.error (RunError.globEntry e)
  | Except.ok p :: rest =>
    match globCollect rest with
    | Except.error e => Except.error e
    | Except.ok r => Except.ok (if is_image_file p then p :: r else r)

/-- Expansion of one input (src/main.rs:39-58), branch order as in the
source: an existing directory is traversed; otherwise, if the UTF-8 text
contains `'*'` (a non-UTF-8 path reads as `""` via `unwrap_or("")`), the
text is glob-expanded (`?` aborts on a pattern error); otherwise the
literal path is included iff `is_image_file` — with no existence check. -/
def expandInput (v : InputView) : Except RunError (List RustPath) :=
  if v.isDir then Except.ok (v.dirFiles.filter is_image_file)
  else if rustContains (v.text.getD "") '*' then
    match v.globResult with
    | Except.error e => Except.error (RunError.globPattern e)
    | Except.ok entries => globCollect entries
  else if is_image_file v.path then Except.ok [v.path] else Except.ok []

/-- The expansion loop over all inputs, in order, first error aborting. -/
def collectAll : List InputView → Except RunError (List RustPath)
  | [] => Except.ok []
  | v :: rest =>
    match expandInput v with
    | Except.error e => Except.error e
    | Except.ok l =>
      match collectAll rest with
      | Except.error e => Except.error e
      | Except.ok r => Except.ok (l ++ r)

/-- Input expansion of `main` (src/main.rs:33-63): an empty raw input list
fails first (line 33-35); then the inputs are expanded in order; an empty
result fails with "No valid image files found" (line 61-63). -/
def expandInputs (inputs : List InputView) : Except RunError (List RustPath) :=
  if inputs.isEmpty then Except.error RunError.noInputs
  else
    match collectAll inputs with
    | Except.error e => Except.error e
    | Except.ok files =>
      if files.isEmpty then Except.error RunError.noValidImages else Except.ok files

/-- A literal image-file input, `a.png`. -/
def imgView : InputView :=
  ⟨⟨["a.png"]⟩, false, true, some "a.png", [], Except.ok []⟩

/-- A glob input whose pattern is syntactically invalid (e.g. `"[*"`). -/
def badGlobView : InputView :=
  ⟨⟨["[*"]⟩, false, false, some "[*", [], Except.error "Pattern syntax error"⟩

/-- C7, counterexample: with a non-empty input list that does yield an
image file, the run can still fail — with a glob error, which is neither
of the two InputErrors — so "in every other case expansion succeeds" is
false as stated. -/
theorem c7_counterexample_glob_error :
    expandInputs [imgView, badGlobView] =
      Except.error (RunError.globPattern "Pattern syntax error") ∧
    RunError.globPattern "Pattern syntax error" ≠ RunError.noInputs ∧
    RunError.globPattern "Pattern syntax error" ≠ RunError.noValidImages := by
  refine ⟨by decide, by decide, by decide⟩

/-- C7, amended: the run fails with InputError("no inputs") before any
expansion when the raw input list is empty, and with InputError("no valid
images found") when expansion completes and yields zero image files; in
every other case where no glob pattern or glob entry error occurs,
expansion succeeds — in particular a literal non-image single file is
silently skipped without error. -/
theorem c7_amended_input_errors (inputs : List InputView) :
    (expandInputs [] = Except.error RunError.noInputs) ∧
    (inputs ≠ [] → ∀ files, collectAll inputs = Except.ok files →
      (files = [] → expandInputs inputs = Except.error RunError.noValidImages) ∧
      (files ≠ [] → expandInputs inputs = Except.ok files)) ∧
    (∀ v : InputView, v.isDir = false → rustContains (v.text.getD "") '*' = false →
      is_image_file v.path = false → expandInput v = Except.ok []) := by
  refine ⟨rfl, ?_, ?_⟩
  · intro hne files hcoll
    have hie : inputs.isEmpty = false := by
      cases inputs with
      | nil => exact absurd rfl hne
      | cons a t => rfl
    constructor
    · rintro rfl
      simp [expandInputs, hie, hcoll]
    · intro hfne
      have hfe : files.isEmpty = false := by
        cases files with
        | nil => exact absurd rfl hfne
        | cons a t => rfl
      simp [expandInputs, hie, hcoll, hfe]
  · intro v hdir hstar himg
    simp [expandInput, hdir, hstar, himg]

/-- Witness for C7 (amended): a single literal non-image input (`a.txt`)
expands without error to zero files, and the run then fails with the
"no valid images found" InputError. -/
theorem c7_witness :
    expandInputs [⟨⟨["a.txt"]⟩, false, true, some "a.txt", [], Except.ok []⟩] =
      Except.error RunError.noValidImages := by
  have h := (c7_amended_input_errors
    [⟨⟨["a.txt"]⟩, false, true, some "a.txt", [], Except.ok []⟩]).2.1
    (by intro h; exact List.noConfusion h)
    [] (by decide)
  exact h.1 rfl

/-- C9: the expansion branch for an input is decided in source order — an
existing directory is always traversed (its glob result and its textual
form, wildcard or not, are irrelevant); only a non-directory is tested for
`'*'` and glob-expanded; and a non-UTF-8 path (`text = none`) reads as
`""` via `unwrap_or("")`, contains no `'*'`, and falls through to the
literal-file branch, never the glob branch. -/
theorem c9_branch_order (v : InputView) :
    (v.isDir = true → expandInput v = Except.ok (v.dirFiles.filter is_image_file)) ∧
    (v.isDir = false → rustContains (v.text.getD "") '*' = true →
      expandInput v =
        (match v.globResult with
          | Except.error e => Except.error (RunError.globPattern e)
          | Except.ok entries => globCollect entries)) ∧
    (v.isDir = false → v.text = none →
      expandInput v = Except.ok (if is_image_file v.path then [v.path] else [])) := by
  refine ⟨?_, ?_, ?_⟩
  · intro h
    simp [expandInput, h]
  · intro h1 h2
    simp [expandInput, h1, h2]
  · intro h1 h2
    have hc : rustContains "" '*' = false := by decide
    cases himg : is_image_file v.path <;>
      simp [expandInput, h1, h2, hc, himg]

/-- Witness for C9: a directory whose name contains `'*'` (and whose glob
result is even an error) is traversed as a directory; a non-UTF-8 literal
path falls through to the literal branch (here: not an image, skipped). -/
theorem c9_witness :
    expandInput ⟨⟨["dir*"]⟩, true, true, some "dir*",
        [⟨["d.png"]⟩, ⟨["e.txt"]⟩], Except.error "ignored"⟩ =
      Except.ok [⟨["d.png"]⟩] ∧
    expandInput ⟨⟨["np"]⟩, false, true, none, [], Except.error "ignored"⟩ =
      Except.ok [] := by
  constructor
  · have h := (c9_branch_order ⟨⟨["dir*"]⟩, true, true, some "dir*",
      [⟨["d.png"]⟩, ⟨["e.txt"]⟩], Except.error "ignored"⟩).1 rfl
    exact h.trans (by decide)
  · have h := (c9_branch_order ⟨⟨["np"]⟩, false, true, none, [],
      Except.error "ignored"⟩).2.2 rfl rfl
    exact h.trans (by decide)

/-- C10: a literal (non-directory, non-wildcard) path with a supported
image extension is included by expansion without any existence check (the
`existsFs` fact is never consulted — replacing it changes nothing); at
pipeline time a file that fails to open fails as a DecodeError, after all
earlier files of the batch have been processed and have printed their
lines. -/
theorem c10_nonexistent_literal_deferred_failure (v : InputView) (b : Bool)
    (env : RunEnv) (force : Bool) (output : Option RustPath) (arg : String) :
    (v.isDir = false → rustContains (v.text.getD "") '*' = false →
      is_image_file v.path = true →
      expandInput v = Except.ok [v.path] ∧
      expandInput ⟨v.path, v.isDir, b, v.text, v.dirFiles, v.globResult⟩ =
        Except.ok [v.path]) ∧
    (∀ pre : List RustPath,
      (∀ f ∈ pre, (stepOf env force output arg f).isOk = true) →
      env.decode v.path = none →
      (env.existsFs (resolveOutput output env.outputIsDir v.path) && !force) = false →
      processLoop env force output arg (pre ++ [v.path]) =
        (pre ++ [v.path], pre.map (lineOf env output),
         some (RunError.decodeError v.path))) := by
  constructor
  · intro hdir hstar himg
    constructor <;> simp [expandInput, hdir, hstar, himg]
  · intro pre hpre hdec hgate
    induction pre with
    | nil =>
      have hstep : stepOf env force output arg v.path =
          StepResult.err (RunError.decodeError v.path) := by
        simp only [stepOf]
        rw [hgate]
        simp [stepBody, resize_image, hdec]
      simp [processLoop, hstep]
    | cons f rest ih =>
      have hf : (stepOf env force output arg f).isOk = true := hpre f (by simp)
      have ih2 := ih (fun g hg => hpre g (by simp [hg]))
      cases hst : stepOf env force output arg f with
      | skip =>
        rw [hst] at hf
        exact absurd hf (by simp [StepResult.isOk])
      | err e =>
        rw [hst] at hf
        exact absurd hf (by simp [StepResult.isOk])
      | ok line =>
        have hl := stepOf_ok_line hst
        simp only [List.cons_append, processLoop, hst]
        simp only [List.append_eq]
        rw [ih2]
        simp [hl]

/-- Witness for C10: `b.png` does not exist (existence flag immaterial) but
is accepted by expansion; the two-file run then processes `a.png`, prints
its line, and aborts with a decode error on `b.png`. -/
theorem c10_witness :
    expandInput ⟨⟨["b.png"]⟩, false, true, some "b.png", [], Except.ok []⟩ =
      Except.ok [⟨["b.png"]⟩] ∧
    processLoop demoEnv false none "50x50" [⟨["a.png"]⟩, ⟨["b.png"]⟩] =
      ([RustPath.mk ["a.png"], RustPath.mk ["b.png"]],
       ["Processed: a.png -> a.png"],
       some (RunError.decodeError ⟨["b.png"]⟩)) := by
  constructor
  · exact ((c10_nonexistent_literal_deferred_failure
      ⟨⟨["b.png"]⟩, false, false, some "b.png", [], Except.ok []⟩ true demoEnv
      false none "50x50").1 rfl (by decide) (by decide)).2
  · have h := (c10_nonexistent_literal_deferred_failure
      ⟨⟨["b.png"]⟩, false, false, some "b.png", [], Except.ok []⟩ true demoEnv
      false none "50x50").2 [⟨["a.png"]⟩] (by decide) (by decide) (by decide)
    exact h.trans (by decide)
